import Mathlib

/-!
Verification of the soooounds audio-reactive image transformer.

This file is a shallow embedding, in Lean 4, of the algorithmic core of the
repository: the audio feature extractor (`useAudioAnalyzer.ts` / `analyze`),
the audio-to-parameter mapping and per-pixel color transform
(`aiImageTransform.ts`), the WebGL fragment shader hash
(`webglTransforms.ts`), the server-side audio mask (`createAudioMask`), and
the live-mode transform scheduling effect (`App.tsx`).

JavaScript numbers are modelled by exact rationals (`ℚ`) where the source
only uses field operations and comparisons, and by reals (`ℝ`) where the
source uses transcendental functions (`Math.pow(10, x/20)`, `Math.sqrt`,
`Math.sin`).  A dB-scale spectrum entry can be `-Infinity` in the Web Audio
API (silence); spectra are therefore modelled as `List (WithBot ℚ)` with
`⊥` playing the role of `-Infinity`.  Calls to the stateful global
`Math.random()` are modelled by an explicit stream of draws `ℕ → ℚ`
threaded through the affected code.
-/

namespace Soooounds

/-! ## JavaScript numeric primitives -/

/-- Truncation toward zero, as performed by the JavaScript `%` operator on
the quotient. -/
def jsTrunc (q : ℚ) : ℤ := if q < 0 then ⌈q⌉ else ⌊q⌋

/-- The JavaScript remainder operator `a % b`: `a - b * trunc (a / b)`. -/
def jsMod (a b : ℚ) : ℚ := a - b * jsTrunc (a / b)

/-- JavaScript `Math.round`: round half away from zero toward positive
infinity, i.e. `⌊x + 1/2⌋`. -/
def jsRound (x : ℚ) : ℤ := ⌊x + 1/2⌋

/-- JavaScript `Math.max` on two numbers. -/
def jsMax (a b : ℚ) : ℚ := if a < b then b else a

/-- JavaScript `Math.min` on two numbers. -/
def jsMin (a b : ℚ) : ℚ := if b < a then b else a

theorem jsMax_eq (a b : ℚ) : jsMax a b = max a b := by
  unfold jsMax
  split
  · rename_i h
    exact (max_eq_right h.le).symm
  · rename_i h
    exact (max_eq_left (not_lt.1 h)).symm

theorem jsMin_eq (a b : ℚ) : jsMin a b = min a b := by
  unfold jsMin
  split
  · rename_i h
    exact (min_eq_right h.le).symm
  · rename_i h
    exact (min_eq_left (not_lt.1 h)).symm

theorem jsMod_nonneg (a b : ℚ) (ha : 0 ≤ a) (hb : 0 < b) : 0 ≤ jsMod a b := by
  have hq : 0 ≤ a / b := div_nonneg ha hb.le
  have ht : jsTrunc (a / b) = ⌊a / b⌋ := by
    unfold jsTrunc
    rw [if_neg (not_lt.2 hq)]
  have hfl : (⌊a / b⌋ : ℚ) ≤ a / b := Int.floor_le _
  have : (⌊a / b⌋ : ℚ) * b ≤ a := (le_div_iff₀ hb).1 hfl
  unfold jsMod
  rw [ht]
  nlinarith

theorem jsMod_lt (a b : ℚ) (ha : 0 ≤ a) (hb : 0 < b) : jsMod a b < b := by
  have hq : 0 ≤ a / b := div_nonneg ha hb.le
  have ht : jsTrunc (a / b) = ⌊a / b⌋ := by
    unfold jsTrunc
    rw [if_neg (not_lt.2 hq)]
  have hfl : a / b < (⌊a / b⌋ : ℚ) + 1 := Int.lt_floor_add_one _
  have : a < ((⌊a / b⌋ : ℚ) + 1) * b := (div_lt_iff₀ hb).1 hfl
  unfold jsMod
  rw [ht]
  nlinarith

theorem jsMod_of_lt (a b : ℚ) (ha : 0 ≤ a) (hab : a < b) : jsMod a b = a := by
  have hb : 0 < b := lt_of_le_of_lt ha hab
  have hq0 : 0 ≤ a / b := div_nonneg ha hb.le
  have hq1 : a / b < 1 := (div_lt_one hb).2 hab
  have ht : jsTrunc (a / b) = ⌊a / b⌋ := by
    unfold jsTrunc
    rw [if_neg (not_lt.2 hq0)]
  have hfl : ⌊a / b⌋ = 0 := Int.floor_eq_zero_iff.2 ⟨hq0, hq1⟩
  unfold jsMod
  rw [ht, hfl]
  push_cast
  ring

/-! ## Color conversion (aiImageTransform.ts, rgbToHsl / hslToRgb)

The source holds four textually identical copies of this pair of helpers
(module level and `RealtimeTransformer` methods, in both file variants);
they are embedded once.  Channels are the `[0,1]`-normalized values
(`r / 255` etc. in the source). -/

/-- The body of `rgbToHsl` after the division of each channel by 255,
returning `(h, s, l)`.  The JavaScript `switch (max)` matches the first
case whose value equals `max`, which the nested `if` chain reproduces. -/
def rgbToHsl01 (r g b : ℚ) : ℚ × ℚ × ℚ :=
  let maxc := max r (max g b)
  let minc := min r (min g b)
  let l := (maxc + minc) / 2
  if maxc = minc then (0, 0, l)
  else
    let d := maxc - minc
    let s := if 1/2 < l then d / (2 - maxc - minc) else d / (maxc + minc)
    let h := if maxc = r then (g - b) / d + (if g < b then 6 else 0)
             else if maxc = g then (b - r) / d + 2
             else (r - g) / d + 4
    (h / 6, s, l)

/-- The `hue2rgb` helper of `hslToRgb`. -/
def hue2rgb (p q t : ℚ) : ℚ :=
  let t1 := if t < 0 then t + 1 else t
  let t2 := if 1 < t1 then t1 - 1 else t1
  if t2 < 1/6 then p + (q - p) * 6 * t2
  else if t2 < 1/2 then q
  else if t2 < 2/3 then p + (q - p) * (2/3 - t2) * 6
  else p

/-- The body of `hslToRgb` before the final `Math.round(x * 255)` scaling,
returning the `[0,1]`-normalized channels. -/
def hslToRgb01 (h s l : ℚ) : ℚ × ℚ × ℚ :=
  if s = 0 then (l, l, l)
  else
    let q := if l < 1/2 then l * (1 + s) else l + s - l * s
    let p := 2 * l - q
    (hue2rgb p q (h + 1/3), hue2rgb p q h, hue2rgb p q (h - 1/3))

/-- One iteration of the deterministic part of the per-pixel loop of
`simulateTransformation` / `startRealtimeTransform`: convert an 8-bit RGB
pixel to HSL, shift the hue by `hueShift / 360` modulo 1, scale saturation
(clamped above by 1) and lightness (clamped to `[0,1]`), convert back and
round each channel to 8 bits (`Math.round(x * 255)`).  The stochastic
noise injection that may follow is modelled separately by
`cpuNoiseInject`. -/
def transformPixel (hueShift satGain brightGain : ℚ) (r g b : ℕ) : ℤ × ℤ × ℤ :=
  let hsl := rgbToHsl01 ((r : ℚ) / 255) ((g : ℚ) / 255) ((b : ℚ) / 255)
  let newH := jsMod (hsl.1 + hueShift / 360) 1
  let newS := jsMin 1 (hsl.2.1 * satGain)
  let newL := jsMax 0 (jsMin 1 (hsl.2.2 * brightGain))
  let rgb := hslToRgb01 newH newS newL
  (jsRound (rgb.1 * 255), jsRound (rgb.2.1 * 255), jsRound (rgb.2.2 * 255))

/-! ## Audio-to-parameter mapping (aiImageTransform.ts)

The WebGL variant of `simulateTransformation` builds the shader uniforms
`hueShift`, `saturation`, `brightness`, `noise` from the audio features
(the burst / single-shot preset); `RealtimeTransformer.startRealtimeTransform`
builds the continuous / streaming preset.  Decimal literals of the source
are written as exact fractions. -/

structure TransformParams where
  hueShiftDegrees : ℚ
  saturationGain : ℚ
  brightnessGain : ℚ
  noiseAmplitude : ℚ
  deriving DecidableEq

/-- Parameter mapping of `simulateTransformation` (single-shot burst path):
`hueShift = (centroid * 360) % 360`, `saturation = 1 + volume * 1.2`,
`brightness = 1 + (volume - 0.5) * 0.6`,
`noise = volume > 0.4 ? volume * 0.1 : 0`. -/
def mapToParametersBurst (volume centroid : ℚ) : TransformParams :=
  { hueShiftDegrees := jsMod (centroid * 360) 360
    saturationGain := 1 + volume * (6/5)
    brightnessGain := 1 + (volume - 1/2) * (3/5)
    noiseAmplitude := if 2/5 < volume then volume * (1/10) else 0 }

/-- Parameter mapping of `RealtimeTransformer.startRealtimeTransform`
(continuous path): `hueShift = (centroid * 360) % 360`,
`saturation = 1 + volume * 0.8`, `brightness = 1 + (volume - 0.5) * 0.4`,
`noise = energy > 50 ? volume * 0.1 : 0`. -/
def mapToParametersContinuous (volume centroid energy : ℚ) : TransformParams :=
  { hueShiftDegrees := jsMod (centroid * 360) 360
    saturationGain := 1 + volume * (4/5)
    brightnessGain := 1 + (volume - 1/2) * (2/5)
    noiseAmplitude := if 50 < energy then volume * (1/10) else 0 }

/-! ## Server-side audio mask, minimal mode (server index.js, createAudioMask)

In `'minimal'` mode the server paints, over a black (weight 0) canvas,
four white (weight 1) axis-aligned squares anchored at the corners:
`size = Math.max(200, Math.min(width, height) * volume * 0.8)` and
`fillRect(0, 0, size, size)`, `fillRect(width - size, 0, size, size)`,
`fillRect(0, height - size, size, size)`,
`fillRect(width - size, height - size, size, size)`. -/

/-- Side length of the corner squares of the minimal-mode mask. -/
def minimalMaskSize (volume width height : ℚ) : ℚ :=
  jsMax 200 (jsMin width height * volume * (4/5))

/-- Membership of the point `(x, y)` in the axis-aligned square with corner
`(rx, ry)` and side `s` (the region painted by `fillRect rx ry s s`). -/
def inSquare (rx ry s x y : ℚ) : Prop :=
  rx ≤ x ∧ x < rx + s ∧ ry ≤ y ∧ y < ry + s

instance (rx ry s x y : ℚ) : Decidable (inSquare rx ry s x y) := by
  unfold inSquare
  infer_instance

/-- Weight of the minimal-mode mask at the point `(x, y)`: 1 inside any of
the four corner squares, 0 elsewhere. -/
def minimalMask (volume width height x y : ℚ) : ℚ :=
  let s := minimalMaskSize volume width height
  if inSquare 0 0 s x y ∨ inSquare (width - s) 0 s x y ∨
      inSquare 0 (height - s) s x y ∨ inSquare (width - s) (height - s) s x y
  then 1 else 0

/-! ## Live-mode transform scheduling (App.tsx)

The real-time transformation `useEffect` starts a transform when
`isRealtimeActive && uploadedImage && isListening && !isTransforming` and
`now - lastTransformRef.current > 8000` (strict); it then records
`lastTransformRef.current = now`, sets `isTransforming` and invokes
`transformImageWithAI`.  `toggleRealtimeMode` resets
`lastTransformRef.current = 0` when activating live mode.  Time is the
simulated millisecond clock; `runTicks` replays the effect at each instant
at which React re-runs it. -/

structure DriverState where
  lastTransform : ℕ
  isTransforming : Bool
  isRealtimeActive : Bool
  isListening : Bool
  hasImage : Bool
  transformCount : ℕ
  deriving DecidableEq

/-- One run of the real-time transformation effect at time `now`. -/
def effectTick (s : DriverState) (now : ℕ) : DriverState :=
  if s.isRealtimeActive = true ∧ s.hasImage = true ∧ s.isListening = true ∧
      s.isTransforming = false ∧ s.lastTransform + 8000 < now then
    { s with lastTransform := now, isTransforming := true,
             transformCount := s.transformCount + 1 }
  else s

/-- Completion (success or failure) of an in-flight transform
(`finally { setIsTransforming(false) }`). -/
def transformComplete (s : DriverState) : DriverState :=
  { s with isTransforming := false }

/-- `toggleRealtimeMode` when activating live mode: sets the flag and
resets `lastTransformRef.current` to 0. -/
def startLiveMode (s : DriverState) : DriverState :=
  { s with isRealtimeActive := true, lastTransform := 0 }

/-- Replay the effect at each time in `ts`, in order. -/
def runTicks (s : DriverState) (ts : List ℕ) : DriverState :=
  ts.foldl effectTick s

/-- Driver state after "start" (audio listening, image uploaded) followed
by "start live mode", before any effect tick. -/
def initialLiveState : DriverState :=
  startLiveMode
    { lastTransform := 0, isTransforming := false, isRealtimeActive := false,
      isListening := true, hasImage := true, transformCount := 0 }

/-! ## Noise injection

The CPU pixel loop of `simulateTransformation` ends with:
```
if (volume > 0.4 && Math.random() < volume * 0.05) {
  const noise = (Math.random() - 0.5) * volume * 50;
  data[i]     = Math.max(0, Math.min(255, data[i] + noise));
  data[i + 1] = Math.max(0, Math.min(255, data[i + 1] + noise));
  data[i + 2] = Math.max(0, Math.min(255, data[i + 2] + noise));
}
```
`&&` short-circuits, so the first `Math.random()` draw happens only when
`volume > 0.4`.  The draws of the global RNG are modelled by an explicit
stream `rand : ℕ → ℚ`; the store into the `Uint8ClampedArray` rounds the
clamped value half to even (`uint8Round`). -/

/-- Rounding performed by a store into a `Uint8ClampedArray` after
clamping: round to nearest, ties to even. -/
def uint8Round (q : ℚ) : ℤ :=
  if Int.fract q < 1/2 then ⌊q⌋
  else if 1/2 < Int.fract q then ⌊q⌋ + 1
  else if ⌊q⌋ % 2 = 0 then ⌊q⌋ else ⌊q⌋ + 1

/-- The noise-injection tail of the CPU pixel loop for one pixel, given the
stream of `Math.random()` draws it would consume.  Returns the stored
channels and the number of draws consumed. -/
def cpuNoiseInject (r g b : ℤ) (volume : ℚ) (rand : ℕ → ℚ) :
    (ℤ × ℤ × ℤ) × ℕ :=
  if 2/5 < volume then
    if rand 0 < volume * (1/20) then
      let noise := (rand 1 - 1/2) * volume * 50
      ((uint8Round (jsMax 0 (jsMin 255 ((r : ℚ) + noise))),
        uint8Round (jsMax 0 (jsMin 255 ((g : ℚ) + noise))),
        uint8Round (jsMax 0 (jsMin 255 ((b : ℚ) + noise)))), 2)
    else ((r, g, b), 1)
  else ((r, g, b), 0)

/-- The `rand` function of the WebGL fragment shader:
`fract(sin(dot(co.xy, vec2(12.9898, 78.233)) + u_seed) * 43758.5453)`, a
pure function of the pixel coordinate and the seed uniform. -/
noncomputable def shaderRand (x y seed : ℝ) : ℝ :=
  Int.fract (Real.sin (x * (129898/10000) + y * (78233/1000) + seed) * (437585453/10000))

/-! ## Audio feature extraction (useAudioAnalyzer.ts, analyze)

`analyze` reads a time-domain window (`getFloatTimeDomainData`) and a
dB-scale spectrum (`getFloatFrequencyData`) and computes volume, spectral
centroid, rolloff, pitch and energy.  A spectrum entry may be
`-Infinity` (silent bin); it is modelled as `⊥ : WithBot ℚ`. -/

/-- Linear magnitude of a dB-scale bin: `Math.pow(10, dB / 20)`, with
`-Infinity ↦ 0`. -/
noncomputable def linMag (d : WithBot ℚ) : ℝ :=
  WithBot.recBotCoe 0 (fun x : ℚ => (10 : ℝ) ^ ((x : ℝ) / 20)) d

/-- Pitch-detection loop: starting from `maxMagnitude = -Infinity` and
`pitch = 0`, scan the given bin indices in order and move `pitch` to any
bin whose dB value strictly exceeds the running maximum. -/
def pitchAux (s : List (WithBot ℚ)) : List ℕ → WithBot ℚ → ℕ → ℕ
  | [], _, p => p
  | i :: rest, m, p =>
    let v := s.getD i ⊥
    if m < v then pitchAux s rest v i else pitchAux s rest m p

/-- The bin indices visited by the pitch loop
`for (let i = 1; i < frequencyData.length / 4; i++)`: all `i` with
`1 ≤ i` and `i < length / 4`, i.e. `4 * i < length`. -/
def pitchBins (n : ℕ) : List ℕ :=
  (List.range n).filter fun i => decide (1 ≤ i ∧ 4 * i < n)

/-- Pitch of a spectrum: index of the strictly-largest dB value among the
bins scanned by the loop (`0` if no bin ever beats `-Infinity`). -/
def pitchOf (s : List (WithBot ℚ)) : ℕ :=
  pitchAux s (pitchBins s.length) ⊥ 0

/-- Rolloff loop: accumulate linear magnitudes and return the first index
at which the running sum reaches the target, `0` if the loop ends without
the break firing (`rolloff` keeps its initial value). -/
noncomputable def rolloffAux (target : ℝ) : List ℝ → ℝ → ℕ → ℕ
  | [], _, _ => 0
  | m :: rest, acc, i =>
    if target ≤ acc + m then i else rolloffAux target rest (acc + m) (i + 1)

/-- First bin index at which cumulative linear magnitude reaches 90% of
the total (`0` for an all-zero spectrum). -/
noncomputable def rolloffIndex (s : List (WithBot ℚ)) : ℕ :=
  rolloffAux ((s.map linMag).sum * (9/10)) (s.map linMag) 0 0

/-- An `AudioFeatures` snapshot as produced by `analyze`. -/
structure AudioFeaturesR where
  volume : ℝ
  frequency : List (WithBot ℚ)
  waveform : List ℚ
  pitch : ℕ
  centroid : ℝ
  rolloff : ℝ
  energy : ℝ

/-- The `analyze` closure of `useAudioAnalyzer`: volume is the
root-mean-square of the window scaled by 10 and clamped to `[0,1]`;
centroid is the magnitude-weighted mean bin index (0 when the magnitude
sum is not positive) divided by the bin count; rolloff and pitch as
above; energy is the sum of linear magnitudes.  The source performs no
input validation: the function is total in both arguments. -/
noncomputable def analyze (waveformData : List ℚ) (frequencyData : List (WithBot ℚ)) :
    AudioFeaturesR :=
  let sumSq : ℚ := (waveformData.map fun x => x * x).sum
  let volume : ℝ := Real.sqrt ((sumSq : ℝ) / (waveformData.length : ℝ))
  let magnitudeSum : ℝ := (frequencyData.map linMag).sum
  let weightedSum : ℝ :=
    (frequencyData.enum.map fun p => linMag p.2 * (p.1 : ℝ)).sum
  let centroid : ℝ := if 0 < magnitudeSum then weightedSum / magnitudeSum else 0
  { volume := max 0 (min 1 (volume * 10))
    frequency := frequencyData
    waveform := waveformData
    pitch := pitchOf frequencyData
    centroid := centroid / (frequencyData.length : ℝ)
    rolloff := (rolloffIndex frequencyData : ℝ) / (frequencyData.length : ℝ)
    energy := magnitudeSum }

/-! ## Transform cycle and local fallback (aiImageTransform.ts)

`simulateTransformation` decodes the data URL into an `Image`; `onload`
renders the transformed canvas and resolves with its data URL, `onerror`
resolves with the original `imageData`.  The promise executor only ever
calls `resolve`, never `reject`.  The image type, the audio-features type
and the image-data encoding are abstracted; `decode` models the browser
image decoder and `render` the canvas pipeline run in `onload`.

`transformImageWithAI` runs one `try` block — upload the image, `POST` it
to the backend proxy (the opaque external generation call), check the
HTTP status and the `success` flag — and in `catch` of any of those
failures falls through to `simulateTransformation`.  The whole `try` body
is one use of the external service, modelled as call number 0 of a stream
`service : ℕ → Except ε δ` of per-call outcomes; the code contains no
loop, so no further call is consulted. -/

/-- The local fallback `simulateTransformation`: render the decoded image,
or resolve with the original image data when decoding fails. -/
def simulateTransformation {Img Feat Data : Type} (decode : Data → Option Img)
    (render : Img → Feat → Data) (imageData : Data) (features : Feat) : Data :=
  match decode imageData with
  | some img => render img features
  | none => imageData

/-- One cycle of `transformImageWithAI`: return the backend result when
the single external call succeeds, otherwise resolve with the local
fallback.  The returned promise never rejects. -/
def transformImageWithAI {Img Feat Data ε : Type} (service : ℕ → Except ε Data)
    (decode : Data → Option Img) (render : Img → Feat → Data)
    (imageData : Data) (features : Feat) : Except ε Data :=
  match service 0 with
  | Except.ok result => Except.ok result
  | Except.error _ =>
      Except.ok (simulateTransformation decode render imageData features)

/-! ## Theorems -/

/-- C5: For every valid `AudioFeatures` snapshot (volume in `[0,1]`,
centroid in `[0,1]`, energy nonnegative), both the burst preset
(`1 + volume*1.2`, `1 + (volume-0.5)*0.6`, noise when `volume > 0.4`) and
the continuous preset (`1 + volume*0.8`, `1 + (volume-0.5)*0.4`, noise
when `energy > 50`) produce `hueShiftDegrees ∈ [0,360)`,
`saturationGain > 0`, `brightnessGain > 0` and `noiseAmplitude ∈ [0,1]`. -/
theorem mapToParameters_bounds (volume centroid energy : ℚ)
    (hv0 : 0 ≤ volume) (hv1 : volume ≤ 1) (hc0 : 0 ≤ centroid)
    (hc1 : centroid ≤ 1) (he : 0 ≤ energy) :
    (0 ≤ (mapToParametersBurst volume centroid).hueShiftDegrees ∧
      (mapToParametersBurst volume centroid).hueShiftDegrees < 360 ∧
      0 < (mapToParametersBurst volume centroid).saturationGain ∧
      0 < (mapToParametersBurst volume centroid).brightnessGain ∧
      0 ≤ (mapToParametersBurst volume centroid).noiseAmplitude ∧
      (mapToParametersBurst volume centroid).noiseAmplitude ≤ 1) ∧
    (0 ≤ (mapToParametersContinuous volume centroid energy).hueShiftDegrees ∧
      (mapToParametersContinuous volume centroid energy).hueShiftDegrees < 360 ∧
      0 < (mapToParametersContinuous volume centroid energy).saturationGain ∧
      0 < (mapToParametersContinuous volume centroid energy).brightnessGain ∧
      0 ≤ (mapToParametersContinuous volume centroid energy).noiseAmplitude ∧
      (mapToParametersContinuous volume centroid energy).noiseAmplitude ≤ 1) := by
  have hc360 : 0 ≤ centroid * 360 := by nlinarith
  have hmod0 : 0 ≤ jsMod (centroid * 360) 360 := jsMod_nonneg _ _ hc360 (by norm_num)
  have hmod1 : jsMod (centroid * 360) 360 < 360 := jsMod_lt _ _ hc360 (by norm_num)
  constructor
  · refine ⟨hmod0, hmod1, by simp only [mapToParametersBurst]; nlinarith,
      by simp only [mapToParametersBurst]; nlinarith, ?_, ?_⟩
    · simp only [mapToParametersBurst]
      split
      · nlinarith
      · exact le_refl 0
    · simp only [mapToParametersBurst]
      split
      · nlinarith
      · norm_num
  · refine ⟨hmod0, hmod1, by simp only [mapToParametersContinuous]; nlinarith,
      by simp only [mapToParametersContinuous]; nlinarith, ?_, ?_⟩
    · simp only [mapToParametersContinuous]
      split
      · nlinarith
      · exact le_refl 0
    · simp only [mapToParametersContinuous]
      split
      · nlinarith
      · norm_num

/-- Witness for C5 at `volume = 1/2`, `centroid = 1/2`, `energy = 100`. -/
theorem mapToParameters_bounds_witness :
    (0 ≤ (mapToParametersBurst (1/2) (1/2)).hueShiftDegrees ∧
      (mapToParametersBurst (1/2) (1/2)).hueShiftDegrees < 360 ∧
      0 < (mapToParametersBurst (1/2) (1/2)).saturationGain ∧
      0 < (mapToParametersBurst (1/2) (1/2)).brightnessGain ∧
      0 ≤ (mapToParametersBurst (1/2) (1/2)).noiseAmplitude ∧
      (mapToParametersBurst (1/2) (1/2)).noiseAmplitude ≤ 1) ∧
    (0 ≤ (mapToParametersContinuous (1/2) (1/2) 100).hueShiftDegrees ∧
      (mapToParametersContinuous (1/2) (1/2) 100).hueShiftDegrees < 360 ∧
      0 < (mapToParametersContinuous (1/2) (1/2) 100).saturationGain ∧
      0 < (mapToParametersContinuous (1/2) (1/2) 100).brightnessGain ∧
      0 ≤ (mapToParametersContinuous (1/2) (1/2) 100).noiseAmplitude ∧
      (mapToParametersContinuous (1/2) (1/2) 100).noiseAmplitude ≤ 1) :=
  mapToParameters_bounds (1/2) (1/2) 100 (by norm_num) (by norm_num)
    (by norm_num) (by norm_num) (by norm_num)

/-- Helper: the concrete minimal-mode square side at `volume = 1`,
`width = height = 512`. -/
theorem minimalMaskSize_512 : minimalMaskSize 1 512 512 = 2048/5 := by
  unfold minimalMaskSize jsMax jsMin
  norm_num

/-- Helper: the concrete minimal-mode mask weight at the image center. -/
theorem minimalMask_512_center : minimalMask 1 512 512 256 256 = 1 := by
  simp only [minimalMask]
  rw [minimalMaskSize_512, if_pos]
  left
  unfold inSquare
  norm_num

/-- C3 counterexample: with `volume = 1.0` and `width = height = 512`, the
minimal-mode corner square side is `max(200, 512 * 1.0 * 0.8) = 409.6`,
not `min(512,512) * 1.0 * 0.3 = 153.6`, and the corner squares overlap the
center, so the pixel at `(256, 256)` has weight `1.0`, not `0.0`. -/
theorem minimalMask_counterexample :
    minimalMaskSize 1 512 512 = 2048/5 ∧ ¬ minimalMaskSize 1 512 512 = 768/5 ∧
    minimalMask 1 512 512 256 256 = 1 :=
  ⟨minimalMaskSize_512, by rw [minimalMaskSize_512]; norm_num,
    minimalMask_512_center⟩

/-- C3 (amended): in minimal ("Corners") mode the corner squares have side
`max(200, min(width,height) * volume * 0.8)` — a 200-pixel floor and 0.8
factor, with no 0.3 cap.  For every features value and positive
dimensions the pixel at `(0,0)` has weight `1.0`; with `volume = 1.0` and
`width = height = 512` the side is `409.6` and, because the squares reach
past the middle, the center pixel `(256, 256)` also has weight `1.0`. -/
theorem minimalMask_amended (volume width height : ℚ)
    (hw : 0 < width) (hh : 0 < height) :
    minimalMask volume width height 0 0 = 1 ∧
    minimalMaskSize 1 512 512 = jsMax 200 (jsMin 512 512 * 1 * (4/5)) ∧
    minimalMaskSize 1 512 512 = 2048/5 ∧
    minimalMask 1 512 512 256 256 = 1 := by
  refine ⟨?_, rfl, minimalMaskSize_512, minimalMask_512_center⟩
  have hs : (200 : ℚ) ≤ minimalMaskSize volume width height := by
    unfold minimalMaskSize
    rw [jsMax_eq]
    exact le_max_left _ _
  simp only [minimalMask]
  rw [if_pos]
  left
  exact ⟨le_refl 0, by linarith, le_refl 0, by linarith⟩

/-- Witness for C3 (amended) at `volume = 1`, `width = height = 512`. -/
theorem minimalMask_amended_witness :
    minimalMask 1 512 512 0 0 = 1 ∧
    minimalMaskSize 1 512 512 = jsMax 200 (jsMin 512 512 * 1 * (4/5)) ∧
    minimalMaskSize 1 512 512 = 2048/5 ∧
    minimalMask 1 512 512 256 256 = 1 :=
  minimalMask_amended 1 512 512 (by norm_num) (by norm_num)

/-- C7 counterexample: starting live mode (which resets the last-transform
reference to 0) and replaying the scheduling effect at simulated times 0
and 8000 triggers no transform, because the code requires strictly more
than 8000 ms (`now - lastTransformRef.current > 8000`); the claim predicts
exactly one invocation after advancing exactly 8000 ms. -/
theorem liveMode_exact_8000_counterexample :
    (runTicks initialLiveState [0, 8000]).transformCount = 0 := by decide

/-- C7 (amended): a transform starts only when no transform is in flight
and strictly more than 8000 ms have elapsed since the last transform
started; advancing simulated time by 8001 ms triggers exactly one
invocation, while advancing by 8000 ms or 7999 ms triggers zero. -/
theorem liveMode_amended :
    (∀ (s : DriverState) (now : ℕ),
      (effectTick s now).transformCount ≠ s.transformCount →
        s.isTransforming = false ∧ s.lastTransform + 8000 < now) ∧
    (runTicks initialLiveState [0, 8001]).transformCount = 1 ∧
    (runTicks initialLiveState [0, 7999]).transformCount = 0 := by
  refine ⟨?_, by decide, by decide⟩
  intro s now h
  unfold effectTick at h
  by_cases hc : s.isRealtimeActive = true ∧ s.hasImage = true ∧
      s.isListening = true ∧ s.isTransforming = false ∧
      s.lastTransform + 8000 < now
  · exact ⟨hc.2.2.2.1, hc.2.2.2.2⟩
  · rw [if_neg hc] at h
    exact absurd rfl h

/-- Witness for C7 (amended): the invariant applied to the initial live
state at time 9000, where a transform does start. -/
theorem liveMode_amended_witness :
    initialLiveState.isTransforming = false ∧
    initialLiveState.lastTransform + 8000 < 9000 :=
  liveMode_amended.1 initialLiveState 9000 (by decide)

/-- C1 counterexample: the per-pixel noise injection of the CPU
`simulateTransformation` path draws from the global stateful
`Math.random()`.  For the pixel `(128,128,128)` with `volume = 1` and
identical remaining inputs (the CPU path takes no seed at all), two
states of the global RNG — first draw `0.04` then `0.9`, versus first
draw `0.9` — yield the bytes `(148,148,148)` versus `(128,128,128)`, so
the noise value is not a pure function of `(pixelCoord, seed)` and
repeated calls on identical inputs need not be byte-identical. -/
theorem cpuNoise_global_rng_counterexample :
    (cpuNoiseInject 128 128 128 1 fun n => if n = 0 then (1:ℚ)/25 else 9/10).1 ≠
      (cpuNoiseInject 128 128 128 1 fun _ => (9:ℚ)/10).1 := by
  have hA : (cpuNoiseInject 128 128 128 1
      fun n => if n = 0 then (1:ℚ)/25 else 9/10).1 = (148, 148, 148) := by
    norm_num [cpuNoiseInject, uint8Round, jsMax, jsMin, Int.fract]
  have hB : (cpuNoiseInject 128 128 128 1 fun _ => (9:ℚ)/10).1 =
      (128, 128, 128) := by
    norm_num [cpuNoiseInject]
  rw [hA, hB]
  decide

/-- C1 (amended): the WebGL fragment shader's `rand` is a pure
deterministic hash of the pixel coordinate and the seed uniform with value
in `[0,1)`, but the CPU simulation path's noise is drawn from the global
stateful `Math.random()`, so its output is a function of the RNG stream as
well; that path is deterministic — independent of the RNG stream — only
when `volume ≤ 0.4`, where the noise branch is disabled. -/
theorem noise_determinism_amended :
    (∀ x y seed : ℝ, 0 ≤ shaderRand x y seed ∧ shaderRand x y seed < 1) ∧
    (∀ (r g b : ℤ) (volume : ℚ) (rand rand' : ℕ → ℚ), volume ≤ 2/5 →
      cpuNoiseInject r g b volume rand = cpuNoiseInject r g b volume rand') := by
  constructor
  · intro x y seed
    exact ⟨Int.fract_nonneg _, Int.fract_lt_one _⟩
  · intro r g b volume rand rand' hv
    unfold cpuNoiseInject
    rw [if_neg (not_lt.2 hv), if_neg (not_lt.2 hv)]

/-- Witness for C1 (amended): the shader hash at the origin with seed 0,
and the noise-free CPU path at `volume = 1/5` under two different RNG
streams. -/
theorem noise_determinism_amended_witness :
    (0 ≤ shaderRand 0 0 0 ∧ shaderRand 0 0 0 < 1) ∧
    cpuNoiseInject 10 20 30 (1/5) (fun _ => 0) =
      cpuNoiseInject 10 20 30 (1/5) (fun _ => 1) :=
  ⟨noise_determinism_amended.1 0 0 0,
    noise_determinism_amended.2 10 20 30 (1/5) (fun _ => 0) (fun _ => 1)
      (by norm_num)⟩

/-- C8: one transform cycle never surfaces an external failure: its result
is always `ok`; when the single external generation call fails — for any
error — the cycle resolves with the local `simulateTransformation`
fallback, computed once; and the cycle's result depends only on call
number 0 of the external service, so the service is never retried within
one cycle. -/
theorem transformImageWithAI_fallback {Img Feat Data ε : Type}
    (service service' : ℕ → Except ε Data) (decode : Data → Option Img)
    (render : Img → Feat → Data) (imageData : Data) (features : Feat) :
    (∃ out, transformImageWithAI service decode render imageData features =
      Except.ok out) ∧
    (∀ e, service 0 = Except.error e →
      transformImageWithAI service decode render imageData features =
        Except.ok (simulateTransformation decode render imageData features)) ∧
    (service 0 = service' 0 →
      transformImageWithAI service decode render imageData features =
        transformImageWithAI service' decode render imageData features) := by
  refine ⟨?_, ?_, ?_⟩
  · unfold transformImageWithAI
    cases h : service 0 with
    | ok result => exact ⟨result, rfl⟩
    | error e => exact ⟨simulateTransformation decode render imageData features, rfl⟩
  · intro e he
    unfold transformImageWithAI
    rw [he]
  · intro h
    unfold transformImageWithAI
    rw [h]

/-- Witness for C8: a concrete failing service; the cycle resolves with
the fallback (here the original image data, as its decoder also fails). -/
theorem transformImageWithAI_fallback_witness :
    transformImageWithAI (fun _ => (Except.error 3 : Except ℕ ℕ))
      (fun _ => (none : Option ℕ)) (fun _ _ : ℕ => (0 : ℕ)) 7 4 =
      Except.ok 7 :=
  (transformImageWithAI_fallback (fun _ => (Except.error 3 : Except ℕ ℕ))
    (fun _ => (Except.error 3 : Except ℕ ℕ)) (fun _ => (none : Option ℕ))
    (fun _ _ : ℕ => (0 : ℕ)) 7 4).2.1 3 rfl

/-- C10: the local fallback never rejects — its promise executor only ever
calls `resolve` — and when the input image data cannot be decoded
(`img.onerror`), it resolves with the original input image data
unchanged. -/
theorem simulateTransformation_onerror {Img Feat Data : Type}
    (decode : Data → Option Img) (render : Img → Feat → Data)
    (imageData : Data) (features : Feat) (h : decode imageData = none) :
    simulateTransformation decode render imageData features = imageData := by
  unfold simulateTransformation
  rw [h]

/-- Witness for C10: a decoder that fails on the concrete input `7`. -/
theorem simulateTransformation_onerror_witness :
    simulateTransformation (fun _ : ℕ => (none : Option ℕ))
      (fun _ _ : ℕ => (99 : ℕ)) 7 4 = 7 :=
  simulateTransformation_onerror (fun _ : ℕ => (none : Option ℕ))
    (fun _ _ : ℕ => (99 : ℕ)) 7 4 rfl

theorem pitchAux_cons (s : List (WithBot ℚ)) (i : ℕ) (rest : List ℕ)
    (m : WithBot ℚ) (p : ℕ) :
    pitchAux s (i :: rest) m p =
      if m < s.getD i ⊥ then pitchAux s rest (s.getD i ⊥) i
      else pitchAux s rest m p := rfl

/-- Invariant of the pitch-detection loop: either no scanned bin ever beat
the running maximum and the candidate is returned unchanged, or the result
is a scanned bin that strictly beats the running maximum and weakly
dominates every scanned bin. -/
theorem pitchAux_spec (s : List (WithBot ℚ)) (idxs : List ℕ) (m : WithBot ℚ)
    (p : ℕ) :
    (pitchAux s idxs m p = p ∧ ∀ i ∈ idxs, s.getD i ⊥ ≤ m) ∨
    (pitchAux s idxs m p ∈ idxs ∧ m < s.getD (pitchAux s idxs m p) ⊥ ∧
      ∀ i ∈ idxs, s.getD i ⊥ ≤ s.getD (pitchAux s idxs m p) ⊥) := by
  induction idxs generalizing m p with
  | nil =>
    left
    exact ⟨rfl, by simp⟩
  | cons i rest ih =>
    rw [pitchAux_cons]
    by_cases hc : m < s.getD i ⊥
    · rw [if_pos hc]
      rcases ih (s.getD i ⊥) i with ⟨heq, hall⟩ | ⟨hmem, hlt, hall⟩
      · right
        rw [heq]
        refine ⟨List.mem_cons_self i rest, hc, ?_⟩
        intro j hj
        rcases List.mem_cons.1 hj with rfl | hj'
        · exact le_refl _
        · exact hall j hj'
      · right
        refine ⟨List.mem_cons_of_mem i hmem, lt_trans hc hlt, ?_⟩
        intro j hj
        rcases List.mem_cons.1 hj with rfl | hj'
        · exact le_of_lt hlt
        · exact hall j hj'
    · rw [if_neg hc]
      rcases ih m p with ⟨heq, hall⟩ | ⟨hmem, hlt, hall⟩
      · left
        refine ⟨heq, ?_⟩
        intro j hj
        rcases List.mem_cons.1 hj with rfl | hj'
        · exact not_lt.1 hc
        · exact hall j hj'
      · right
        refine ⟨List.mem_cons_of_mem i hmem, hlt, ?_⟩
        intro j hj
        rcases List.mem_cons.1 hj with rfl | hj'
        · exact le_trans (not_lt.1 hc) (le_of_lt hlt)
        · exact hall j hj'

theorem mem_pitchBins (n i : ℕ) : i ∈ pitchBins n ↔ 1 ≤ i ∧ 4 * i < n := by
  unfold pitchBins
  simp only [List.mem_filter, List.mem_range, decide_eq_true_eq]
  constructor
  · exact fun h => h.2
  · intro h
    exact ⟨by omega, h⟩

/-- Spectrum used to settle C4: length 8, so the loop bound
`frequencyData.length / 4` is 2; bin 1 holds a dB value of `-10` and bin 2
(the bin `N/4` itself) holds the larger value `5`. -/
def exSpectrum : List (WithBot ℚ) :=
  [((0:ℚ) : WithBot ℚ), ((-10:ℚ) : WithBot ℚ), ((5:ℚ) : WithBot ℚ),
   ((0:ℚ) : WithBot ℚ), ((0:ℚ) : WithBot ℚ), ((0:ℚ) : WithBot ℚ),
   ((0:ℚ) : WithBot ℚ), ((0:ℚ) : WithBot ℚ)]

/-- C4 counterexample: the pitch loop
`for (let i = 1; i < frequencyData.length / 4; i++)` excludes bin `N/4`
itself.  On `exSpectrum` (length 8, so `N/4 = 2`) the maximum dB value
among bins 1..2 inclusive sits at bin 2 — as the second conjunct shows —
so the claim predicts pitch 2, but the code only scans bin 1 and returns
pitch 1. -/
theorem pitch_quarter_bin_counterexample :
    pitchOf exSpectrum = 1 ∧ exSpectrum.getD 1 ⊥ < exSpectrum.getD 2 ⊥ := by
  decide

/-- C4 (amended): for every spectrum with more than 4 bins and no
`-Infinity` entries, the extracted pitch is the index of the maximum dB
value among bins `i` with `1 ≤ i` and `i < N/4`, bin `N/4` itself
excluded (and bin 0 excluded); in particular the pitch is at least 1 and
lies strictly inside the lowest quarter of the bins. -/
theorem pitch_amended (s : List (WithBot ℚ)) (hlen : 4 < s.length)
    (hfin : ∀ x ∈ s, x ≠ ⊥) :
    1 ≤ pitchOf s ∧ 4 * pitchOf s < s.length ∧
    ∀ i, 1 ≤ i → 4 * i < s.length → s.getD i ⊥ ≤ s.getD (pitchOf s) ⊥ := by
  unfold pitchOf
  have h1mem : 1 ∈ pitchBins s.length := (mem_pitchBins _ _).2 ⟨le_refl 1, by omega⟩
  rcases pitchAux_spec s (pitchBins s.length) ⊥ 0 with ⟨_, hall⟩ | ⟨hmem, _, hall⟩
  · exfalso
    have h1 : s.getD 1 ⊥ = ⊥ := le_bot_iff.1 (hall 1 h1mem)
    have h1lt : 1 < s.length := by omega
    have hget : s.getD 1 ⊥ = s[1] := List.getD_eq_getElem s ⊥ h1lt
    exact hfin s[1] (List.getElem_mem h1lt) (by rw [← hget, h1])
  · have hr := (mem_pitchBins _ _).1 hmem
    exact ⟨hr.1, hr.2, fun i hi1 hi4 => hall i ((mem_pitchBins _ _).2 ⟨hi1, hi4⟩)⟩

/-- Witness for C4 (amended) on a concrete length-5 spectrum with finite
entries: the only scanned bin is bin 1, which the pitch must dominate. -/
theorem pitch_amended_witness :
    1 ≤ pitchOf (List.map (fun q : ℚ => (q : WithBot ℚ)) [1, 2, 3, 4, 5]) ∧
    4 * pitchOf (List.map (fun q : ℚ => (q : WithBot ℚ)) [1, 2, 3, 4, 5]) <
      (List.map (fun q : ℚ => (q : WithBot ℚ)) [1, 2, 3, 4, 5]).length ∧
    ∀ i, 1 ≤ i →
      4 * i < (List.map (fun q : ℚ => (q : WithBot ℚ)) [1, 2, 3, 4, 5]).length →
      (List.map (fun q : ℚ => (q : WithBot ℚ)) [1, 2, 3, 4, 5]).getD i ⊥ ≤
        (List.map (fun q : ℚ => (q : WithBot ℚ)) [1, 2, 3, 4, 5]).getD
          (pitchOf (List.map (fun q : ℚ => (q : WithBot ℚ)) [1, 2, 3, 4, 5])) ⊥ :=
  pitch_amended (List.map (fun q : ℚ => (q : WithBot ℚ)) [1, 2, 3, 4, 5])
    (by decide) (by decide)

@[simp] theorem linMag_bot : linMag ⊥ = 0 := rfl

@[simp] theorem linMag_coe (x : ℚ) :
    linMag (x : WithBot ℚ) = (10 : ℝ) ^ ((x : ℝ) / 20) := rfl

theorem linMag_nonneg (d : WithBot ℚ) : 0 ≤ linMag d := by
  induction d using WithBot.recBotCoe with
  | bot => simp
  | coe x =>
    rw [linMag_coe]
    positivity

theorem rolloffAux_cons (target m : ℝ) (rest : List ℝ) (acc : ℝ) (i : ℕ) :
    rolloffAux target (m :: rest) acc i =
      if target ≤ acc + m then i else rolloffAux target rest (acc + m) (i + 1) :=
  rfl

theorem analyze_volume (w : List ℚ) (s : List (WithBot ℚ)) :
    (analyze w s).volume =
      max 0 (min 1 (Real.sqrt ((((w.map fun x => x * x).sum : ℚ) : ℝ) /
        (w.length : ℝ)) * 10)) := rfl

theorem analyze_centroid (w : List ℚ) (s : List (WithBot ℚ)) :
    (analyze w s).centroid =
      (if 0 < (s.map linMag).sum
       then (s.enum.map fun p => linMag p.2 * (p.1 : ℝ)).sum / (s.map linMag).sum
       else 0) / (s.length : ℝ) := rfl

theorem analyze_rolloff (w : List ℚ) (s : List (WithBot ℚ)) :
    (analyze w s).rolloff = (rolloffIndex s : ℝ) / (s.length : ℝ) := rfl

theorem analyze_pitch (w : List ℚ) (s : List (WithBot ℚ)) :
    (analyze w s).pitch = pitchOf s := rfl

/-- C2: for every silent input — a nonempty all-zero time-domain window
and a spectrum whose linear magnitudes sum to 0 (for instance all bins at
the `-Infinity` dB floor) — `analyze` returns `volume = 0`, `centroid = 0`
and `rolloff = 0`.  The function is total, so it returns a well-formed
snapshot with these defaults rather than raising. -/
theorem analyze_silent (w : List ℚ) (s : List (WithBot ℚ)) (hw : w ≠ [])
    (hz : ∀ x ∈ w, x = 0) (hs : (s.map linMag).sum = 0) :
    (analyze w s).volume = 0 ∧ (analyze w s).centroid = 0 ∧
    (analyze w s).rolloff = 0 := by
  refine ⟨?_, ?_, ?_⟩
  · rw [analyze_volume]
    have hsum : (w.map fun x => x * x).sum = 0 := by
      apply List.sum_eq_zero
      intro y hy
      rcases List.mem_map.1 hy with ⟨x, hx, rfl⟩
      rw [hz x hx]
      norm_num
    rw [hsum]
    push_cast
    rw [zero_div, Real.sqrt_zero, zero_mul]
    rw [min_eq_right (by norm_num : (0:ℝ) ≤ 1), max_self]
  · rw [analyze_centroid, hs]
    rw [if_neg (lt_irrefl 0)]
    exact zero_div _
  · rw [analyze_rolloff]
    have hidx : rolloffIndex s = 0 := by
      unfold rolloffIndex
      rw [hs, zero_mul]
      cases s with
      | nil => rfl
      | cons a t =>
        rw [List.map_cons, rolloffAux_cons, if_pos]
        have := linMag_nonneg a
        linarith
    rw [hidx]
    push_cast
    exact zero_div _

/-- Witness for C2: a two-sample zero window with a two-bin spectrum at
the `-Infinity` floor. -/
theorem analyze_silent_witness :
    (analyze [0, 0] [⊥, ⊥]).volume = 0 ∧ (analyze [0, 0] [⊥, ⊥]).centroid = 0 ∧
    (analyze [0, 0] [⊥, ⊥]).rolloff = 0 :=
  analyze_silent [0, 0] [⊥, ⊥] (by simp) (by simp) (by simp)

/-- C9 counterexample: `analyze` contains no input validation and no
`InvalidInputLength` error.  On a length-1 window and length-1 spectrum —
neither empty nor the analyzer's configured length (`frequencyBinCount`
1024) — it silently computes and returns a well-formed snapshot
(`volume = 1` here, since the RMS of `[1/2]` is `1/2`, scaled by 10 and
clamped) instead of failing. -/
theorem analyze_no_validation_counterexample :
    (analyze [(1:ℚ)/2] [⊥]).volume = 1 ∧ (analyze [(1:ℚ)/2] [⊥]).centroid = 0 ∧
    (analyze [(1:ℚ)/2] [⊥]).rolloff = 0 ∧ (analyze [(1:ℚ)/2] [⊥]).pitch = 0 := by
  refine ⟨?_, ?_, ?_, ?_⟩
  · rw [analyze_volume]
    simp only [List.map_cons, List.map_nil, List.sum_cons, List.sum_nil,
      List.length_cons, List.length_nil]
    push_cast
    have hsq : ((1:ℝ)/2 * (1/2) + 0) / 1 = (1/2)^2 := by norm_num
    rw [hsq, Real.sqrt_sq (by norm_num : (0:ℝ) ≤ 1/2)]
    rw [show (1:ℝ)/2 * 10 = 5 by norm_num]
    rw [min_eq_left (by norm_num : (1:ℝ) ≤ 5)]
    rw [max_eq_right (by norm_num : (0:ℝ) ≤ 1)]
  · rw [analyze_centroid]
    simp
  · rw [analyze_rolloff]
    have hidx : rolloffIndex [⊥] = 0 := by
      unfold rolloffIndex
      simp only [List.map_cons, List.map_nil, linMag_bot, List.sum_cons,
        List.sum_nil]
      rw [rolloffAux_cons, if_pos (by norm_num)]
    rw [hidx]
    push_cast
    exact zero_div _
  · rw [analyze_pitch]
    decide

/-- C9 (amended): `analyze` never fails: it is total in both inputs, with
length violations silently processed rather than rejected, and for every
nonempty window the returned snapshot is well-formed with its volume
clamped to `[0,1]`. -/
theorem analyze_amended (w : List ℚ) (s : List (WithBot ℚ)) (hw : w ≠ []) :
    0 ≤ (analyze w s).volume ∧ (analyze w s).volume ≤ 1 := by
  rw [analyze_volume]
  constructor
  · exact le_max_left 0 _
  · exact max_le (by norm_num) (min_le_left 1 _)

/-- Witness for C9 (amended) at a one-sample window. -/
theorem analyze_amended_witness :
    0 ≤ (analyze [(1:ℚ)] [((0:ℚ) : WithBot ℚ)]).volume ∧
    (analyze [(1:ℚ)] [((0:ℚ) : WithBot ℚ)]).volume ≤ 1 :=
  analyze_amended [(1:ℚ)] [((0:ℚ) : WithBot ℚ)] (by simp)

/-! ## Round-trip of the color conversion (C6) -/

theorem hue2rgb_seg1 (p q t : ℚ) (h0 : 0 ≤ t) (h1 : t < 1/6) :
    hue2rgb p q t = p + (q - p) * 6 * t := by
  simp only [hue2rgb]
  split_ifs <;> first | rfl | linarith

theorem hue2rgb_seg2 (p q t : ℚ) (h0 : 1/6 ≤ t) (h1 : t < 1/2) :
    hue2rgb p q t = q := by
  simp only [hue2rgb]
  split_ifs <;> first | rfl | linarith

theorem hue2rgb_seg3 (p q t : ℚ) (h0 : 1/2 ≤ t) (h1 : t < 2/3) :
    hue2rgb p q t = p + (q - p) * (2/3 - t) * 6 := by
  simp only [hue2rgb]
  split_ifs <;> first | rfl | linarith

theorem hue2rgb_seg4 (p q t : ℚ) (h0 : 2/3 ≤ t) (h1 : t ≤ 1) :
    hue2rgb p q t = p := by
  simp only [hue2rgb]
  split_ifs <;> first | rfl | linarith

theorem hue2rgb_wrap_neg (p q t : ℚ) (h0 : -1 ≤ t) (h1 : t < 0) :
    hue2rgb p q t = hue2rgb p q (t + 1) := by
  simp only [hue2rgb]
  rw [if_pos h1, if_neg (show ¬ t + 1 < 0 by linarith),
    if_neg (show ¬ (1:ℚ) < t + 1 by linarith)]

theorem hue2rgb_wrap_hi (p q t : ℚ) (h0 : 1 < t) (h1 : t ≤ 2) :
    hue2rgb p q t = hue2rgb p q (t - 1) := by
  simp only [hue2rgb]
  rw [if_neg (show ¬ t < 0 by linarith), if_pos h0,
    if_neg (show ¬ t - 1 < 0 by linarith),
    if_neg (show ¬ (1:ℚ) < t - 1 by linarith)]

/-- Evaluation of `hslToRgb01` at the saturation and lightness produced by
`rgbToHsl01` from channel maximum `M` and minimum `m`: the internal `q`
recovers `M` and `p` recovers `m`, leaving one `hue2rgb m M` call per
channel. -/
theorem hslToRgb01_eval (h M m : ℚ) (hm0 : 0 ≤ m) (hmM : m < M) (hM1 : M ≤ 1) :
    hslToRgb01 h
      (if 1/2 < (M + m)/2 then (M - m)/(2 - M - m) else (M - m)/(M + m))
      ((M + m)/2) =
    (hue2rgb m M (h + 1/3), hue2rgb m M h, hue2rgb m M (h - 1/3)) := by
  have hMm : 0 < M + m := by linarith
  have hden2 : 0 < 2 - M - m := by linarith
  have hspos : 0 < (if 1/2 < (M + m)/2 then (M - m)/(2 - M - m)
      else (M - m)/(M + m)) := by
    split_ifs
    · exact div_pos (by linarith) hden2
    · exact div_pos (by linarith) hMm
  simp only [hslToRgb01]
  rw [if_neg (ne_of_gt hspos)]
  have hq : (if (M + m)/2 < 1/2
      then ((M + m)/2) * (1 + (if 1/2 < (M + m)/2 then (M - m)/(2 - M - m)
        else (M - m)/(M + m)))
      else (M + m)/2 + (if 1/2 < (M + m)/2 then (M - m)/(2 - M - m)
        else (M - m)/(M + m)) - ((M + m)/2) * (if 1/2 < (M + m)/2
        then (M - m)/(2 - M - m) else (M - m)/(M + m))) = M := by
    rcases lt_trichotomy ((M + m)/2) (1/2) with hl | hl | hl
    · rw [if_pos hl, if_neg (not_lt.2 hl.le)]
      field_simp
      ring
    · rw [if_neg (not_lt.2 hl.ge), if_neg (not_lt.2 hl.le)]
      have h1 : M + m = 1 := by linarith
      rw [h1]
      field_simp
      linarith
    · rw [if_neg (not_lt.2 hl.le), if_pos hl]
      field_simp
      ring
  rw [hq]
  have hp : 2 * ((M + m)/2) - M = m := by ring
  rw [hp]

/-- Composition of the two conversions on `[0,1]`-normalized channels:
`rgbToHsl` followed by `hslToRgb` with all parameters at their identity
values. -/
def hslRound (r g b : ℚ) : ℚ × ℚ × ℚ :=
  hslToRgb01 (rgbToHsl01 r g b).1 (rgbToHsl01 r g b).2.1 (rgbToHsl01 r g b).2.2

theorem roundtrip_S1 (r g b : ℚ) (h0b : 0 ≤ b) (h1r : r ≤ 1)
    (hgr : g ≤ r) (hbg : b ≤ g) (hne : b < r) :
    hslRound r g b = (r, g, b) := by
  have hbr : b ≤ r := le_trans hbg hgr
  have hM : max r (max g b) = r := max_eq_left (max_le hgr hbr)
  have hm : min r (min g b) = b := by
    rw [min_eq_right hbg]
    exact min_eq_right hbr
  have hd : 0 < r - b := by linarith
  have hcomp : rgbToHsl01 r g b =
      (((g - b)/(r - b) + 0)/6,
        if 1/2 < (r + b)/2 then (r - b)/(2 - r - b) else (r - b)/(r + b),
        (r + b)/2) := by
    simp only [rgbToHsl01]
    rw [hM, hm, if_neg hne.ne', if_pos rfl, if_neg (not_lt.2 hbg)]
  unfold hslRound
  rw [hcomp]
  dsimp only
  rw [hslToRgb01_eval _ r b h0b hne h1r]
  set x := (g - b)/(r - b) with hx
  have hx0 : 0 ≤ x := div_nonneg (by linarith) hd.le
  have hx1 : x ≤ 1 := (div_le_one hd).2 (by linarith)
  rw [Prod.mk.injEq, Prod.mk.injEq]
  refine ⟨?_, ?_, ?_⟩
  · rcases lt_or_eq_of_le hx1 with hxlt | hxeq
    · rw [hue2rgb_seg2 _ _ _ (by linarith) (by linarith)]
    · rw [hue2rgb_seg3 _ _ _ (by linarith) (by linarith), hxeq]
      ring_nf
  · rcases lt_or_eq_of_le hx1 with hxlt | hxeq
    · rw [hue2rgb_seg1 _ _ _ (by linarith) (by linarith)]
      have hmul : (r - b) * x = g - b := by
        rw [hx]
        field_simp
      have h6 : b + (r - b) * 6 * ((x + 0)/6) = b + (r - b) * x := by ring
      rw [h6, hmul]
      ring
    · have hgr2 : g = r := by
        rw [hx] at hxeq
        field_simp at hxeq
        linarith
      rw [hue2rgb_seg2 _ _ _ (by linarith) (by linarith)]
      exact hgr2.symm
  · rw [hue2rgb_wrap_neg _ _ _ (by linarith) (by linarith)]
    rw [hue2rgb_seg4 _ _ _ (by linarith) (by linarith)]

theorem roundtrip_S2 (r g b : ℚ) (h0g : 0 ≤ g) (h1r : r ≤ 1)
    (hgb : g < b) (hbr : b ≤ r) :
    hslRound r g b = (r, g, b) := by
  have hne : g < r := lt_of_lt_of_le hgb hbr
  have hM : max r (max g b) = r := max_eq_left (max_le (le_trans hgb.le hbr) hbr)
  have hm : min r (min g b) = g := by
    rw [min_eq_left hgb.le]
    exact min_eq_right hne.le
  have hd : 0 < r - g := by linarith
  have hcomp : rgbToHsl01 r g b =
      (((g - b)/(r - g) + 6)/6,
        if 1/2 < (r + g)/2 then (r - g)/(2 - r - g) else (r - g)/(r + g),
        (r + g)/2) := by
    simp only [rgbToHsl01]
    rw [hM, hm, if_neg hne.ne', if_pos rfl, if_pos hgb]
  unfold hslRound
  rw [hcomp]
  dsimp only
  rw [hslToRgb01_eval _ r g h0g hne h1r]
  set x := (g - b)/(r - g) with hx
  have hx0 : x < 0 := div_neg_of_neg_of_pos (by linarith) hd
  have hx1 : -1 ≤ x := (le_div_iff₀ hd).2 (by linarith)
  have hmul : (r - g) * x = g - b := by
    rw [hx]
    field_simp
  rw [Prod.mk.injEq, Prod.mk.injEq]
  refine ⟨?_, ?_, ?_⟩
  · rw [hue2rgb_wrap_hi _ _ _ (by linarith) (by linarith)]
    rw [hue2rgb_seg2 _ _ _ (by linarith) (by linarith)]
  · rw [hue2rgb_seg4 _ _ _ (by linarith) (by linarith)]
  · rw [hue2rgb_seg3 _ _ _ (by linarith) (by linarith)]
    have hring : g + (r - g) * (2/3 - ((x + 6)/6 - 1/3)) * 6 =
        g - (r - g) * x := by ring
    rw [hring, hmul]
    ring

theorem roundtrip_S3a (r g b : ℚ) (h0b : 0 ≤ b) (h1g : g ≤ 1)
    (hrg : r < g) (hbr : b ≤ r) :
    hslRound r g b = (r, g, b) := by
  have hbg : b < g := lt_of_le_of_lt hbr hrg
  have hM : max r (max g b) = g := by
    rw [max_eq_left hbg.le]
    exact max_eq_right hrg.le
  have hm : min r (min g b) = b := by
    rw [min_eq_right hbg.le]
    exact min_eq_right hbr
  have hd : 0 < g - b := by linarith
  have hcomp : rgbToHsl01 r g b =
      (((b - r)/(g - b) + 2)/6,
        if 1/2 < (g + b)/2 then (g - b)/(2 - g - b) else (g - b)/(g + b),
        (g + b)/2) := by
    simp only [rgbToHsl01]
    rw [hM, hm, if_neg hbg.ne', if_neg (ne_of_gt hrg), if_pos rfl]
  unfold hslRound
  rw [hcomp]
  dsimp only
  rw [hslToRgb01_eval _ g b h0b hbg h1g]
  set x := (b - r)/(g - b) with hx
  have hx0 : x ≤ 0 := div_nonpos_of_nonpos_of_nonneg (by linarith) hd.le
  have hx1 : -1 ≤ x := (le_div_iff₀ hd).2 (by linarith)
  have hmul : (g - b) * x = b - r := by
    rw [hx]
    field_simp
  rw [Prod.mk.injEq, Prod.mk.injEq]
  refine ⟨?_, ?_, ?_⟩
  · rcases lt_or_eq_of_le hx0 with hxlt | hxeq
    · rw [hue2rgb_seg3 _ _ _ (by linarith) (by linarith)]
      have hring : b + (g - b) * (2/3 - ((x + 2)/6 + 1/3)) * 6 =
          b - (g - b) * x := by ring
      rw [hring, hmul]
      ring
    · rw [hue2rgb_seg4 _ _ _ (by linarith) (by linarith)]
      have : b = r := by
        have h0 : (g - b) * x = 0 := by
          rw [hxeq]
          ring
        rw [hmul] at h0
        linarith
      exact this
  · rw [hue2rgb_seg2 _ _ _ (by linarith) (by linarith)]
  · rcases lt_or_eq_of_le hx0 with hxlt | hxeq
    · rw [hue2rgb_wrap_neg _ _ _ (by linarith) (by linarith)]
      rw [hue2rgb_seg4 _ _ _ (by linarith) (by linarith)]
    · rw [hue2rgb_seg1 _ _ _ (by linarith) (by linarith), hxeq]
      ring

theorem roundtrip_S3b (r g b : ℚ) (h0r : 0 ≤ r) (h1g : g ≤ 1)
    (hrb : r < b) (hbg : b ≤ g) :
    hslRound r g b = (r, g, b) := by
  have hrg : r < g := lt_of_lt_of_le hrb hbg
  have hM : max r (max g b) = g := by
    rw [max_eq_left hbg]
    exact max_eq_right hrg.le
  have hm : min r (min g b) = r := by
    rw [min_eq_right hbg]
    exact min_eq_left hrb.le
  have hd : 0 < g - r := by linarith
  have hcomp : rgbToHsl01 r g b =
      (((b - r)/(g - r) + 2)/6,
        if 1/2 < (g + r)/2 then (g - r)/(2 - g - r) else (g - r)/(g + r),
        (g + r)/2) := by
    simp only [rgbToHsl01]
    rw [hM, hm, if_neg hrg.ne', if_neg (ne_of_gt hrg), if_pos rfl]
  unfold hslRound
  rw [hcomp]
  dsimp only
  rw [hslToRgb01_eval _ g r h0r hrg h1g]
  set x := (b - r)/(g - r) with hx
  have hx0 : 0 < x := div_pos (by linarith) hd
  have hx1 : x ≤ 1 := (div_le_one hd).2 (by linarith)
  have hmul : (g - r) * x = b - r := by
    rw [hx]
    field_simp
  rw [Prod.mk.injEq, Prod.mk.injEq]
  refine ⟨?_, ?_, ?_⟩
  · rw [hue2rgb_seg4 _ _ _ (by linarith) (by linarith)]
  · rcases lt_or_eq_of_le hx1 with hxlt | hxeq
    · rw [hue2rgb_seg2 _ _ _ (by linarith) (by linarith)]
    · rw [hue2rgb_seg3 _ _ _ (by linarith) (by linarith), hxeq]
      ring_nf
  · rcases lt_or_eq_of_le hx1 with hxlt | hxeq
    · rw [hue2rgb_seg1 _ _ _ (by linarith) (by linarith)]
      have hring : r + (g - r) * 6 * ((x + 2)/6 - 1/3) = r + (g - r) * x := by
        ring
      rw [hring, hmul]
      ring
    · have hbg2 : b = g := by
        have h1 : (g - r) * x = g - r := by
          rw [hxeq]
          ring
        rw [hmul] at h1
        linarith
      rw [hue2rgb_seg2 _ _ _ (by linarith) (by linarith)]
      exact hbg2.symm

theorem roundtrip_S4a (r g b : ℚ) (h0g : 0 ≤ g) (h1b : b ≤ 1)
    (hgr : g ≤ r) (hrb : r < b) :
    hslRound r g b = (r, g, b) := by
  have hgb : g < b := lt_of_le_of_lt hgr hrb
  have hM : max r (max g b) = b := by
    rw [max_eq_right hgb.le]
    exact max_eq_right hrb.le
  have hm : min r (min g b) = g := by
    rw [min_eq_left hgb.le]
    exact min_eq_right hgr
  have hd : 0 < b - g := by linarith
  have hcomp : rgbToHsl01 r g b =
      (((r - g)/(b - g) + 4)/6,
        if 1/2 < (b + g)/2 then (b - g)/(2 - b - g) else (b - g)/(b + g),
        (b + g)/2) := by
    simp only [rgbToHsl01]
    rw [hM, hm, if_neg hgb.ne', if_neg (ne_of_gt hrb), if_neg (ne_of_gt hgb)]
  unfold hslRound
  rw [hcomp]
  dsimp only
  rw [hslToRgb01_eval _ b g h0g hgb h1b]
  set x := (r - g)/(b - g) with hx
  have hx0 : 0 ≤ x := div_nonneg (by linarith) hd.le
  have hx1 : x < 1 := (div_lt_one hd).2 (by linarith)
  have hmul : (b - g) * x = r - g := by
    rw [hx]
    field_simp
  rw [Prod.mk.injEq, Prod.mk.injEq]
  refine ⟨?_, ?_, ?_⟩
  · rcases lt_or_eq_of_le hx0 with hxlt | hxeq
    · rw [hue2rgb_wrap_hi _ _ _ (by linarith) (by linarith)]
      rw [hue2rgb_seg1 _ _ _ (by linarith) (by linarith)]
      have hring : g + (b - g) * 6 * ((x + 4)/6 + 1/3 - 1) =
          g + (b - g) * x := by ring
      rw [hring, hmul]
      ring
    · rw [hue2rgb_seg4 _ _ _ (by linarith) (by linarith)]
      have : g = r := by
        have h0 : (b - g) * x = 0 := by
          rw [← hxeq]
          ring
        rw [hmul] at h0
        linarith
      exact this
  · rw [hue2rgb_seg4 _ _ _ (by linarith) (by linarith)]
  · rw [hue2rgb_seg2 _ _ _ (by linarith) (by linarith)]

theorem roundtrip_S4b (r g b : ℚ) (h0r : 0 ≤ r) (h1b : b ≤ 1)
    (hrg : r < g) (hgb : g < b) :
    hslRound r g b = (r, g, b) := by
  have hrb : r < b := lt_trans hrg hgb
  have hM : max r (max g b) = b := by
    rw [max_eq_right hgb.le]
    exact max_eq_right hrb.le
  have hm : min r (min g b) = r := by
    rw [min_eq_left hgb.le]
    exact min_eq_left hrg.le
  have hd : 0 < b - r := by linarith
  have hcomp : rgbToHsl01 r g b =
      (((r - g)/(b - r) + 4)/6,
        if 1/2 < (b + r)/2 then (b - r)/(2 - b - r) else (b - r)/(b + r),
        (b + r)/2) := by
    simp only [rgbToHsl01]
    rw [hM, hm, if_neg hrb.ne', if_neg (ne_of_gt hrb), if_neg (ne_of_gt hgb)]
  unfold hslRound
  rw [hcomp]
  dsimp only
  rw [hslToRgb01_eval _ b r h0r hrb h1b]
  set x := (r - g)/(b - r) with hx
  have hx0 : x < 0 := div_neg_of_neg_of_pos (by linarith) hd
  have hx1 : -1 ≤ x := (le_div_iff₀ hd).2 (by linarith)
  have hmul : (b - r) * x = r - g := by
    rw [hx]
    field_simp
  rw [Prod.mk.injEq, Prod.mk.injEq]
  refine ⟨?_, ?_, ?_⟩
  · rw [hue2rgb_seg4 _ _ _ (by linarith) (by linarith)]
  · rw [hue2rgb_seg3 _ _ _ (by linarith) (by linarith)]
    have hring : r + (b - r) * (2/3 - (x + 4)/6) * 6 = r - (b - r) * x := by
      ring
    rw [hring, hmul]
    ring
  · rw [hue2rgb_seg2 _ _ _ (by linarith) (by linarith)]

theorem roundtrip_gray (x : ℚ) : hslRound x x x = (x, x, x) := by
  have hxx : (x + x)/2 = x := by ring
  have hcomp : rgbToHsl01 x x x = (0, 0, x) := by
    have h1 : rgbToHsl01 x x x = (0, 0, (x + x)/2) := by
      simp [rgbToHsl01]
    rw [h1, hxx]
  unfold hslRound
  rw [hcomp]
  dsimp only
  simp [hslToRgb01]

/-- The round-trip `rgbToHsl` / `hslToRgb` is exactly the identity on
`[0,1]`-normalized channels, for every channel ordering. -/
theorem roundtrip01 (r g b : ℚ) (h0r : 0 ≤ r) (h1r : r ≤ 1) (h0g : 0 ≤ g)
    (h1g : g ≤ 1) (h0b : 0 ≤ b) (h1b : b ≤ 1) :
    hslRound r g b = (r, g, b) := by
  by_cases hmax : g ≤ r ∧ b ≤ r
  · rcases le_or_lt b g with hbg | hgb
    · rcases eq_or_lt_of_le (le_trans hbg hmax.1) with heq | hlt
      · have hrg : r ≤ g := by
          rw [← heq]
          exact hbg
        have hg : g = r := le_antisymm hmax.1 hrg
        subst heq
        subst hg
        exact roundtrip_gray _
      · exact roundtrip_S1 r g b h0b h1r hmax.1 hbg hlt
    · exact roundtrip_S2 r g b h0g h1r hgb hmax.2
  · push_neg at hmax
    rcases le_or_lt b g with hbg | hgb
    · have hrg : r < g := by
        by_contra hcon
        push_neg at hcon
        exact absurd (hmax hcon) (not_lt.2 (le_trans hbg hcon))
      rcases le_or_lt b r with hbr | hrb
      · exact roundtrip_S3a r g b h0b h1g hrg hbr
      · exact roundtrip_S3b r g b h0r h1g hrb hbg
    · have hrb : r < b := by
        by_contra hcon
        push_neg at hcon
        exact absurd (hmax (le_trans hgb.le hcon)) (not_lt.2 hcon)
      rcases le_or_lt g r with hgr | hrg
      · exact roundtrip_S4a r g b h0g h1b hgr hrb
      · exact roundtrip_S4b r g b h0r h1b hrg hgb

theorem rgbToHsl01_eq_of_ne (r g b : ℚ)
    (hne : ¬ max r (max g b) = min r (min g b)) :
    rgbToHsl01 r g b =
      ((if max r (max g b) = r then
          (g - b)/(max r (max g b) - min r (min g b)) + (if g < b then 6 else 0)
        else if max r (max g b) = g then
          (b - r)/(max r (max g b) - min r (min g b)) + 2
        else (r - g)/(max r (max g b) - min r (min g b)) + 4)/6,
       if 1/2 < (max r (max g b) + min r (min g b))/2
       then (max r (max g b) - min r (min g b))/
         (2 - max r (max g b) - min r (min g b))
       else (max r (max g b) - min r (min g b))/
         (max r (max g b) + min r (min g b)),
       (max r (max g b) + min r (min g b))/2) := by
  simp only [rgbToHsl01]
  rw [if_neg hne]

/-- Ranges of the `rgbToHsl` outputs needed by the identity-parameter
path: hue in `[0,1)`, saturation at most 1, lightness in `[0,1]`. -/
theorem rgbToHsl01_range (r g b : ℚ) (h0r : 0 ≤ r) (h1r : r ≤ 1) (h0g : 0 ≤ g)
    (h1g : g ≤ 1) (h0b : 0 ≤ b) (h1b : b ≤ 1) :
    0 ≤ (rgbToHsl01 r g b).1 ∧ (rgbToHsl01 r g b).1 < 1 ∧
    (rgbToHsl01 r g b).2.1 ≤ 1 ∧
    0 ≤ (rgbToHsl01 r g b).2.2 ∧ (rgbToHsl01 r g b).2.2 ≤ 1 := by
  have hm0 : 0 ≤ min r (min g b) := le_min h0r (le_min h0g h0b)
  have hM1 : max r (max g b) ≤ 1 := max_le h1r (max_le h1g h1b)
  have hmM : min r (min g b) ≤ max r (max g b) :=
    le_trans (min_le_left _ _) (le_max_left _ _)
  have hgM : g ≤ max r (max g b) := le_trans (le_max_left _ _) (le_max_right _ _)
  have hbM : b ≤ max r (max g b) :=
    le_trans (le_max_right _ _) (le_max_right _ _)
  have hrM : r ≤ max r (max g b) := le_max_left _ _
  have hmr : min r (min g b) ≤ r := min_le_left _ _
  have hmg : min r (min g b) ≤ g := le_trans (min_le_right _ _) (min_le_left _ _)
  have hmb : min r (min g b) ≤ b :=
    le_trans (min_le_right _ _) (min_le_right _ _)
  by_cases hac : max r (max g b) = min r (min g b)
  · have hcomp : rgbToHsl01 r g b =
        (0, 0, (max r (max g b) + min r (min g b))/2) := by
      simp only [rgbToHsl01]
      rw [if_pos hac]
    rw [hcomp]
    exact ⟨le_refl 0, by norm_num, by norm_num, by linarith, by linarith⟩
  · have hlt : min r (min g b) < max r (max g b) :=
      lt_of_le_of_ne hmM (fun h => hac h.symm)
    have hdpos : 0 < max r (max g b) - min r (min g b) := by linarith
    rw [rgbToHsl01_eq_of_ne r g b hac]
    dsimp only
    refine ⟨?_, ?_, ?_, by linarith, by linarith⟩
    · split_ifs with h1 h2 h3
      · have hx0 : -1 ≤ (g - b)/(max r (max g b) - min r (min g b)) :=
          (le_div_iff₀ hdpos).2 (by linarith)
        linarith
      · have hx0 : 0 ≤ (g - b)/(max r (max g b) - min r (min g b)) :=
          div_nonneg (by linarith) hdpos.le
        linarith
      · have hx0 : -1 ≤ (b - r)/(max r (max g b) - min r (min g b)) :=
          (le_div_iff₀ hdpos).2 (by linarith)
        linarith
      · have hx0 : -1 ≤ (r - g)/(max r (max g b) - min r (min g b)) :=
          (le_div_iff₀ hdpos).2 (by linarith)
        linarith
    · split_ifs with h1 h2 h3
      · have hx1 : (g - b)/(max r (max g b) - min r (min g b)) < 0 :=
          div_neg_of_neg_of_pos (by linarith) hdpos
        linarith
      · have hx1 : (g - b)/(max r (max g b) - min r (min g b)) ≤ 1 :=
          (div_le_one hdpos).2 (by linarith)
        linarith
      · have hx1 : (b - r)/(max r (max g b) - min r (min g b)) ≤ 1 :=
          (div_le_one hdpos).2 (by linarith)
        linarith
      · have hx1 : (r - g)/(max r (max g b) - min r (min g b)) ≤ 1 :=
          (div_le_one hdpos).2 (by linarith)
        linarith
    · split_ifs with hl
      · have hden : 0 < 2 - max r (max g b) - min r (min g b) := by linarith
        rw [div_le_one hden]
        linarith
      · have hden : 0 < max r (max g b) + min r (min g b) := by linarith
        rw [div_le_one hden]
        linarith

/-- C6: for every valid 8-bit RGB triple, one pass of the per-pixel color
transform with hue shift 0, saturation and brightness gains 1 and the
noise branch disabled — RGB to HSL and back, through the hue modulo, the
gain clamps and the final `Math.round` — reproduces the original pixel
exactly, and in particular within the claimed rounding tolerance of
`1/255` per normalized channel. -/
theorem rgb_hsl_roundtrip (r g b : ℕ) (hr : r ≤ 255) (hg : g ≤ 255)
    (hb : b ≤ 255) :
    transformPixel 0 1 1 r g b = ((r : ℤ), (g : ℤ), (b : ℤ)) ∧
    |((transformPixel 0 1 1 r g b).1 : ℚ) / 255 - (r : ℚ) / 255| ≤ 1/255 ∧
    |((transformPixel 0 1 1 r g b).2.1 : ℚ) / 255 - (g : ℚ) / 255| ≤ 1/255 ∧
    |((transformPixel 0 1 1 r g b).2.2 : ℚ) / 255 - (b : ℚ) / 255| ≤ 1/255 := by
  have h0r : 0 ≤ (r : ℚ)/255 := by positivity
  have h0g : 0 ≤ (g : ℚ)/255 := by positivity
  have h0b : 0 ≤ (b : ℚ)/255 := by positivity
  have h1r : (r : ℚ)/255 ≤ 1 := by
    rw [div_le_one (by norm_num : (0:ℚ) < 255)]
    exact_mod_cast hr
  have h1g : (g : ℚ)/255 ≤ 1 := by
    rw [div_le_one (by norm_num : (0:ℚ) < 255)]
    exact_mod_cast hg
  have h1b : (b : ℚ)/255 ≤ 1 := by
    rw [div_le_one (by norm_num : (0:ℚ) < 255)]
    exact_mod_cast hb
  obtain ⟨hh0, hh1, hs1, hl0, hl1⟩ :=
    rgbToHsl01_range _ _ _ h0r h1r h0g h1g h0b h1b
  have hrt := roundtrip01 _ _ _ h0r h1r h0g h1g h0b h1b
  unfold hslRound at hrt
  have hc : ∀ n : ℕ, jsRound ((n : ℚ)/255 * 255) = (n : ℤ) := by
    intro n
    have hmul : ((n : ℚ)/255) * 255 = ((n : ℤ) : ℚ) := by
      push_cast
      field_simp
    unfold jsRound
    rw [hmul, add_comm, Int.floor_add_int]
    norm_num
  have hmain : transformPixel 0 1 1 r g b = ((r : ℤ), (g : ℤ), (b : ℤ)) := by
    simp only [transformPixel]
    rw [show (0:ℚ)/360 = 0 from by norm_num, add_zero]
    rw [jsMod_of_lt _ _ hh0 hh1]
    rw [mul_one, mul_one]
    rw [jsMin_eq, min_eq_right hs1]
    rw [jsMin_eq, min_eq_right hl1, jsMax_eq, max_eq_right hl0]
    rw [hrt]
    dsimp only
    rw [Prod.mk.injEq, Prod.mk.injEq]
    exact ⟨hc r, hc g, hc b⟩
  refine ⟨hmain, ?_, ?_, ?_⟩
  · rw [hmain]
    dsimp only
    push_cast
    rw [sub_self, abs_zero]
    norm_num
  · rw [hmain]
    dsimp only
    push_cast
    rw [sub_self, abs_zero]
    norm_num
  · rw [hmain]
    dsimp only
    push_cast
    rw [sub_self, abs_zero]
    norm_num

/-- Witness for C6 at the triples named by the specification: black,
white and pure red. -/
theorem rgb_hsl_roundtrip_witness :
    transformPixel 0 1 1 0 0 0 = ((0 : ℤ), (0 : ℤ), (0 : ℤ)) ∧
    transformPixel 0 1 1 255 255 255 = ((255 : ℤ), (255 : ℤ), (255 : ℤ)) ∧
    transformPixel 0 1 1 255 0 0 = ((255 : ℤ), (0 : ℤ), (0 : ℤ)) :=
  ⟨(rgb_hsl_roundtrip 0 0 0 (by norm_num) (by norm_num) (by norm_num)).1,
   (rgb_hsl_roundtrip 255 255 255 (by norm_num) (by norm_num) (by norm_num)).1,
   (rgb_hsl_roundtrip 255 0 0 (by norm_num) (by norm_num) (by norm_num)).1⟩

end Soooounds
